import Mathlib

/-!
Shallow embedding of the haiku-generator pipeline (`training.py`, with its
call sites in `haiku.py`).

Conventions of the embedding:
* The Keras `Tokenizer` (fitted with `char_level=False`, the fixed filter
  string, `oov_token="<unk>"`, and the default `lower=True`) is embedded by
  its data content: the fitted `word_index` dictionary, modelled as an
  association list with unique keys in dictionary insertion order.
* The trained Keras model is abstracted to the structural data the claims
  depend on: the width of its output distribution (`outDim`, the size of the
  final `Dense(vocab_size)` layer) and its configured input length.  The
  numeric probabilities only ever influence *which* candidate index
  `np.random.choice` returns, never the candidate set, so sampling is
  driven by an arbitrary randomness oracle `rand : Nat -> Nat` restricted
  to the candidate range `range(1, outDim)` exactly as in the source.
* Fallible operations (`raise ValueError`, missing files on load) are
  embedded as `Option`/`Except` results.
-/

/-- The fixed filter characters handed to `Tokenizer(filters=...)` in
`prepare_data` (`training.py` line 36).  Each of these characters is
translated to the split character, a space. -/
def kerasFilters : List Char := "!\"#$%&()*+,-./:;=?@[\\]^_`\x7b|\x7d~\t\n".toList

/-!
Python's string primitives (`str.split`, `str.replace`, `str.strip`,
`str.join`, `str.lower`, `str.translate`) are embedded by structurally
recursive functions over `List Char` so that every definition in this file
evaluates by plain kernel reduction.
-/

/-- `str.lower()` on a character list. -/
def lowerChars (cs : List Char) : List Char := cs.map Char.toLower

/-- `str.split(sep)` for a single separator character: keeps empty
fragments exactly as Python does (`"".split(' ') == ['']`). -/
def splitOnChar (sep : Char) : List Char → List (List Char)
  | [] => [[]]
  | c :: cs =>
    if c = sep then [] :: splitOnChar sep cs
    else
      match splitOnChar sep cs with
      | [] => [[c]]
      | w :: rest => (c :: w) :: rest

/-- `str.split(sep)` for a non-empty multi-character separator, with
explicit fuel (any fuel above the input length is enough, since every
recursive call drops at least one character). -/
def splitOnSeq (sep : List Char) : Nat → List Char → List (List Char)
  | 0, cs => [cs]
  | _ + 1, [] => [[]]
  | fuel + 1, c :: cs =>
    if sep.isPrefixOf (c :: cs) then
      [] :: splitOnSeq sep fuel ((c :: cs).drop sep.length)
    else
      match splitOnSeq sep fuel cs with
      | [] => [[c]]
      | w :: rest => (c :: w) :: rest

/-- `str.replace(pat, rep)` for a non-empty pattern, fuelled like
`splitOnSeq`: non-overlapping occurrences, scanned left to right. -/
def replaceSeq (pat rep : List Char) : Nat → List Char → List Char
  | 0, cs => cs
  | _ + 1, [] => []
  | fuel + 1, c :: cs =>
    if pat.isPrefixOf (c :: cs) then
      rep ++ replaceSeq pat rep fuel ((c :: cs).drop pat.length)
    else c :: replaceSeq pat rep fuel cs

/-- `str.strip()`: drop whitespace from both ends. -/
def trimChars (cs : List Char) : List Char :=
  ((cs.dropWhile Char.isWhitespace).reverse.dropWhile Char.isWhitespace).reverse

/-- `sep.join(parts)`. -/
def joinSep (sep : List Char) : List (List Char) → List Char
  | [] => []
  | [w] => w
  | w :: ws => w ++ sep ++ joinSep sep ws

/-- Replace every filter character by a space
(`keras text_to_word_sequence`, the `str.translate` step). -/
def translateFilters (cs : List Char) : List Char :=
  cs.map (fun c => if kerasFilters.contains c then ' ' else c)

/-- `keras text_to_word_sequence`: lowercase, translate filter characters to
the split character, split on single spaces, drop empty fragments. -/
def textToWordSequence (text : String) : List String :=
  (((splitOnChar ' ' (translateFilters (lowerChars text.toList)))).map
    (fun cs => String.mk cs)).filter (fun w => w ≠ "")

/-- One step of building `Tokenizer.word_counts`: bump the count of `w`,
keeping first-seen insertion order of the underlying `OrderedDict`. -/
def addWord (d : List (String × Nat)) (w : String) : List (String × Nat) :=
  if d.any (fun p => p.1 = w) then d.map (fun p => if p.1 = w then (p.1, p.2 + 1) else p)
  else d ++ [(w, 1)]

/-- `Tokenizer.word_counts` over a word stream, in first-seen order. -/
def wordCounts (ws : List String) : List (String × Nat) :=
  ws.foldl addWord []

/-- Insert into a count-descending list, placing `x` *before* entries of
equal count further right; combined with `sortByCountDesc` this reproduces
Python's stable `list.sort(key=count, reverse=True)`. -/
def insertDesc (x : String × Nat) : List (String × Nat) → List (String × Nat)
  | [] => [x]
  | y :: ys => if y.2 > x.2 then y :: insertDesc x ys else x :: y :: ys

/-- Stable sort by count, descending (`wcounts.sort(key=..., reverse=True)`
in `Tokenizer.fit_on_texts`). -/
def sortByCountDesc : List (String × Nat) → List (String × Nat)
  | [] => []
  | x :: xs => insertDesc x (sortByCountDesc xs)

/-- Python `dict` assignment `d[k] = v`: overwrite in place if the key
exists, else append.  Keys stay unique and in first-insertion order. -/
def dictInsert (d : List (String × Nat)) (kv : String × Nat) : List (String × Nat) :=
  if d.any (fun p => p.1 = kv.1) then d.map (fun p => if p.1 = kv.1 then (p.1, kv.2) else p)
  else d ++ [kv]

/-- `dict(zip(ks, vs))` built left to right. -/
def dictOfPairs (pairs : List (String × Nat)) : List (String × Nat) :=
  pairs.foldl dictInsert []

/-- `Tokenizer.fit_on_texts`: count words over all texts, sort by count
descending (stable), force the `oov_token` `"<unk>"` to index 1, and number
the resulting vocabulary from 1 (`training.py` lines 35-38; keras
`fit_on_texts`). -/
def fit_on_texts (texts : List String) : List (String × Nat) :=
  let ws := texts.flatMap textToWordSequence
  let sortedVoc := "<unk>" :: (sortByCountDesc (wordCounts ws)).map Prod.fst
  dictOfPairs (sortedVoc.zip (List.range' 1 sortedVoc.length))

/-- `word_index.get(w)` (keys of a built dictionary are unique, so the
first match is the dictionary entry). -/
def lookupWord (wi : List (String × Nat)) (w : String) : Option Nat :=
  (wi.find? (fun p => p.1 = w)).map Prod.snd

/-- `Tokenizer.texts_to_sequences([text])[0]` with `num_words=None`:
each word maps to its index if present, otherwise to the `"<unk>"` index;
words absent from the index with no `"<unk>"` entry are dropped. -/
def texts_to_sequences_one (wi : List (String × Nat)) (text : String) : List Nat :=
  (textToWordSequence text).filterMap
    (fun w => (lookupWord wi w).orElse (fun _ => lookupWord wi ("<unk>")))

/-- A haiku from the corpus: `[строка1, строка2, строка3]`. -/
structure Haiku where
  line1 : String
  line2 : String
  line3 : String
deriving DecidableEq, Repr

/-- `haiku[0] + " <line> " + haiku[1] + " <line> " + haiku[2] + " <end>"`
(`training.py` lines 31 and 48). -/
def fullHaikuText (h : Haiku) : String :=
  h.line1 ++ (" <line> ") ++ h.line2 ++ (" <line> ") ++ h.line3 ++ (" <end>")

/-- The structural content of the Keras model built by `create_model`:
the final `Dense(vocab_size, activation='softmax')` width and the
`Embedding(..., input_length=max_sequence_length)` input width.  The learned
weights are abstracted away (see the module docstring). -/
structure KerasModel where
  outDim : Nat
  inputLen : Nat
deriving DecidableEq, Repr

/-- The mutable fields of `HaikuGenerator.__init__` (`training.py` 14-18).
`tokenizer` carries the fitted `word_index`. -/
structure HaikuGenerator where
  tokenizer : Option (List (String × Nat))
  model : Option KerasModel
  vocab_size : Nat
  max_sequence_length : Nat
deriving DecidableEq, Repr

/-- A freshly constructed `HaikuGenerator()`. -/
def freshGenerator : HaikuGenerator := ⟨none, none, 0, 0⟩

/-- `self.tokenizer.word_index.get("<line>", 0)` (`training.py` line 52). -/
def lineTokenId (wi : List (String × Nat)) : Nat :=
  (lookupWord wi ("<line>")).getD 0

/-- The flattened id sequence of one haiku (`training.py` lines 47-49). -/
def fullSequence (wi : List (String × Nat)) (h : Haiku) : List Nat :=
  texts_to_sequences_one wi (fullHaikuText h)

/-- The pair loop `for i in range(first_line_end + 1, len(full_sequence))`
emitting `(full_sequence[:i], full_sequence[i])` (`training.py` 64-69). -/
def trainingPairs (seq : List Nat) (first : Nat) : List (List Nat × Nat) :=
  (List.range' (first + 1) (seq.length - (first + 1))).map
    (fun i => (seq.take i, seq.getD i 0))

/-- Pairs contributed by a single poem: locate the first occurrence of the
`<line>` id (`training.py` 51-58); a poem without it is skipped
(`continue`, lines 60-61). -/
def poemPairs (wi : List (String × Nat)) (h : Haiku) : List (List Nat × Nat) :=
  match (fullSequence wi h).findIdx? (fun t => t = lineTokenId wi) with
  | none => []
  | some first => trainingPairs (fullSequence wi h) first

/-- The `word_index` fitted on the whole corpus inside `prepare_data`. -/
def fittedIndex (haikus : List Haiku) : List (String × Nat) :=
  fit_on_texts (haikus.map fullHaikuText)

/-- All training pairs over the corpus, in corpus order. -/
def corpusPairs (haikus : List Haiku) : List (List Nat × Nat) :=
  haikus.flatMap (poemPairs (fittedIndex haikus))

/-- `pad_sequences([seq], maxlen=m, padding='pre')` on one row (default
`truncating='pre'` keeps the last `m` entries). -/
def padPre (m : Nat) (seq : List Nat) : List Nat :=
  let t := seq.drop (seq.length - m)
  List.replicate (m - t.length) 0 ++ t

/-- `to_categorical(t, num_classes=n)` on one target. -/
def oneHot (n : Nat) (t : Nat) : List Nat :=
  (List.range n).map (fun i => if i = t then 1 else 0)

/-- `HaikuGenerator.prepare_data` (`training.py` 20-81).  The returned
state records the in-place mutations: `tokenizer` and `vocab_size` are set
before the pair loop and therefore also on the failure path, while
`max_sequence_length` is only set when at least one pair exists.  `none` in
the second component is the `raise ValueError` of line 81. -/
def prepare_data (g : HaikuGenerator) (haikus : List Haiku) :
    HaikuGenerator × Option (List (List Nat) × List (List Nat)) :=
  let wi := fittedIndex haikus
  let g1 : HaikuGenerator := { g with tokenizer := some wi, vocab_size := wi.length + 1 }
  let pairs := corpusPairs haikus
  if pairs.isEmpty then (g1, none)
  else
    let msl := (pairs.map (fun p => p.1.length)).foldl Nat.max 0
    ({ g1 with max_sequence_length := msl },
     some (pairs.map (fun p => padPre msl p.1),
           pairs.map (fun p => oneHot (wi.length + 1) p.2)))

/-- `HaikuGenerator.create_model` (`training.py` 83-98): the model is sized
to the current `vocab_size` and `max_sequence_length`. -/
def create_model (g : HaikuGenerator) : HaikuGenerator :=
  { g with model := some ⟨g.vocab_size, g.max_sequence_length⟩ }

/-- `HaikuGenerator.train` (`training.py` 100-117): `prepare_data` then
`create_model` then `model.fit` (which changes none of the embedded
fields).  The boolean records whether the `ValueError` of `prepare_data`
propagated (`false`) or training ran (`true`). -/
def train (g : HaikuGenerator) (haikus : List Haiku) : HaikuGenerator × Bool :=
  match prepare_data g haikus with
  | (g1, none) => (g1, false)
  | (g1, some _) => (create_model g1, true)


/-- The artifact files written by `save_model` / read by `load_model`
(`haiku_model.h5` and `tokenizer.pkl`). -/
structure ModelStore where
  modelFile : Option KerasModel
  tokenizerFile : Option (List (String × Nat))
deriving DecidableEq, Repr

/-- A store in which neither artifact exists yet. -/
def emptyStore : ModelStore := ⟨none, none⟩

/-- `HaikuGenerator.save_model` (`training.py` 186-193): each artifact is
written only when the corresponding field is set (`if self.model:`,
`if self.tokenizer:`); an absent field leaves the prior file untouched, and
the function has no failure path. -/
def save_model (g : HaikuGenerator) (s : ModelStore) : ModelStore :=
  ⟨if g.model.isSome then g.model else s.modelFile,
   if g.tokenizer.isSome then g.tokenizer else s.tokenizerFile⟩

/-- A missing artifact file makes `tf.keras.models.load_model` or
`open(tokenizer_path, 'rb')` raise. -/
inductive LoadFault
  | missingArtifact
deriving DecidableEq, Repr

/-- `HaikuGenerator.load_model` (`training.py` 195-202): sets `model`,
`tokenizer` and `vocab_size = len(word_index) + 1`.
Note that `max_sequence_length` is *not* assigned by the source and keeps
whatever value the generator already had. -/
def load_model (g : HaikuGenerator) (s : ModelStore) : Except LoadFault HaikuGenerator :=
  match s.modelFile with
  | none => .error .missingArtifact
  | some m =>
    match s.tokenizerFile with
    | none => .error .missingArtifact
    | some t =>
      .ok { g with model := some m, tokenizer := some t, vocab_size := t.length + 1 }

/-- `generate_haiku_completion` failure modes: the guard of `training.py`
123-124 (`ValueError` before any generation is attempted), and the error
`np.random.choice` raises when `range(1, len(predicted_probs))` is empty. -/
inductive GenFault
  | notReady
  | emptySampleRange
deriving DecidableEq, Repr

deriving instance DecidableEq for Except

/-- `np.random.choice(range(1, n), p=...)` (`training.py` 152): the result
is the candidate list `range(1, n)` indexed by the randomness oracle's
value; the probability weights choose the index but never enlarge the
candidate set. -/
def sampleId (n r : Nat) : Nat := 1 + r % (n - 1)

/-- `reverse_word_map.get(predicted_id, "<unk>")` (`training.py` 127, 155):
the reverse dictionary comprehension lets a later entry overwrite an
earlier one with the same id, hence the last match wins. -/
def outputWord (wi : List (String × Nat)) (tid : Nat) : String :=
  match wi.reverse.find? (fun p => p.2 = tid) with
  | some p => p.1
  | none => "<unk>"

/-- The surface word obtained at loop iteration `step`. -/
def sampledWordAt (wi : List (String × Nat)) (n : Nat) (rand : Nat → Nat)
    (step : Nat) : String :=
  outputWord wi (sampleId n (rand step))

/-- The body of `for _ in range(max_length)` in `generate_haiku_completion`
(`training.py` 134-165), as a fuel recursion: tokenize the running text,
slide the window to the last `max_sequence_length` ids, left-pad, sample a
token id from `range(1, len(predicted_probs))`, then branch on the surface
word: `<end>` breaks, `<unk>` continues without appending, anything else is
appended to both the generated list and the running text. -/
def genLoop (wi : List (String × Nat)) (msl n : Nat) (rand : Nat → Nat) :
    Nat → Nat → String → List String → Except GenFault (List String)
  | _, 0, _, generated => .ok generated
  | step, fuel + 1, currentText, generated =>
    let tokenList := texts_to_sequences_one wi currentText
    let windowed := if tokenList.length > msl then tokenList.drop (tokenList.length - msl)
                    else tokenList
    let padded := List.replicate (msl - windowed.length) 0 ++ windowed
    if n ≤ 1 then .error .emptySampleRange
    else
      let w := sampledWordAt wi n rand step
      if w = "<end>" then .ok generated
      else if w = "<unk>" then genLoop wi msl n rand (step + 1) fuel currentText generated
      else genLoop wi msl n rand (step + 1) fuel (currentText ++ (" ") ++ w)
             (generated ++ [w])

/-- The token-generation phase of `generate_haiku_completion`
(`training.py` 123-165): guard on absent model/tokenizer, seed the running
text with `first_line + " <line>"`, then run the bounded loop.  The
`temperature` only reshapes the sampling weights (`training.py` 147-149),
which the sampling abstraction absorbs. -/
def generateWords (g : HaikuGenerator) (first_line : String) (max_length : Nat)
    (temperature : ℚ) (rand : Nat → Nat) : Except GenFault (List String) :=
  match g.model, g.tokenizer with
  | some m, some wi =>
    genLoop wi g.max_sequence_length m.outDim rand 0 max_length
      (first_line ++ (" <line>")) []
  | _, _ => .error .notReady

/-- The post-processing of `generate_haiku_completion` (`training.py`
167-184): join with spaces, split on `" <line> "`, strip residual
`"<line>"`/`"<end>"` substrings and surrounding whitespace, drop empty
segments, keep at most the first two, join with a newline. -/
def formatResult (generated : List String) : String :=
  let result_text := joinSep ([' ']) (generated.map (fun w => w.toList))
  let lines := splitOnSeq ((" <line> ").toList) (result_text.length + 1) result_text
  let formatted := lines.filterMap (fun line =>
    let noLine := replaceSeq (("<line>").toList) [] (line.length + 1) line
    let clean := trimChars (replaceSeq (("<end>").toList) [] (noLine.length + 1) noLine)
    if clean = [] then none else some (String.mk clean))
  let formatted2 := if formatted.length > 2 then formatted.take 2 else formatted
  String.mk (joinSep (['\n']) (formatted2.map (fun w => w.toList)))

/-- `HaikuGenerator.generate_haiku_completion` (`training.py` 119-184). -/
def generate_haiku_completion (g : HaikuGenerator) (first_line : String)
    (max_length : Nat) (temperature : ℚ) (rand : Nat → Nat) :
    Except GenFault String :=
  (generateWords g first_line max_length temperature rand).map formatResult

/-- The words of the returned string: segments are joined by `"\n"` and
words inside a segment by `" "`. -/
def outputWords (s : String) : List String :=
  (((splitOnChar '\n' s.toList).flatMap (fun l => splitOnChar ' ' l)).map
    (fun cs => String.mk cs)).filter (fun w => w ≠ "")

/-- Modelled from the spec (§4.1): the spec's notion of assigning ids "in
first-seen order" over a word stream — the distinct words in order of first
appearance.  Used only to compare the spec's vocabulary-numbering claim
with the behaviour of `fit_on_texts`. -/
def firstSeenDistinct (ws : List String) : List String :=
  ws.foldl (fun acc w => if w ∈ acc then acc else acc ++ [w]) []

/-- All corpus words in corpus order, as scanned by `fit_on_texts`. -/
def corpusWords (haikus : List Haiku) : List String :=
  (haikus.map fullHaikuText).flatMap textToWordSequence

/-! ### General lemmas about the generation loop -/

/-- Whatever the sampling oracle does, a successful run of the bounded loop
appends at most `fuel` words. -/
theorem genLoop_ok_length_le (wi : List (String × Nat)) (msl n : Nat) (rand : Nat → Nat) :
    ∀ (fuel step : Nat) (text : String) (gen ws : List String),
      genLoop wi msl n rand step fuel text gen = .ok ws → ws.length ≤ gen.length + fuel := by
  intro fuel
  induction fuel with
  | zero =>
    intro step text gen ws h
    simp only [genLoop, Except.ok.injEq] at h
    subst h
    simp
  | succ f ih =>
    intro step text gen ws h
    simp only [genLoop] at h
    split at h
    · exact absurd h (by simp)
    · split at h
      · simp only [Except.ok.injEq] at h
        subst h; omega
      · split at h
        · have := ih (step + 1) text gen ws h
          omega
        · have := ih (step + 1) (text ++ (" ") ++ sampledWordAt wi n rand step)
            (gen ++ [sampledWordAt wi n rand step]) ws h
          simp at this
          omega

/-- The loop can only fail with `emptySampleRange`, never with `notReady`. -/
theorem genLoop_error_eq (wi : List (String × Nat)) (msl n : Nat) (rand : Nat → Nat) :
    ∀ (fuel step : Nat) (text : String) (gen : List String) (e : GenFault),
      genLoop wi msl n rand step fuel text gen = .error e → e = .emptySampleRange := by
  intro fuel
  induction fuel with
  | zero =>
    intro step text gen e h
    simp [genLoop] at h
  | succ f ih =>
    intro step text gen e h
    simp only [genLoop] at h
    split at h
    · simp only [Except.error.injEq] at h
      exact h.symm
    · split at h
      · simp at h
      · split at h
        · exact ih (step + 1) text gen e h
        · exact ih (step + 1) _ _ e h

/-- A reverse-map hit that is not the `"<unk>"` fallback is a key of the
word index. -/
theorem outputWord_mem_of_ne_unk (wi : List (String × Nat)) (tid : Nat) :
    outputWord wi tid ≠ "<unk>" → outputWord wi tid ∈ wi.map Prod.fst := by
  intro hne
  unfold outputWord at hne ⊢
  cases hfind : wi.reverse.find? (fun p => p.2 = tid) with
  | none => rw [hfind] at hne; exact absurd rfl hne
  | some p =>
    have hp : p ∈ wi.reverse := List.mem_of_find?_eq_some hfind
    exact List.mem_map.mpr ⟨p, List.mem_reverse.mp hp, rfl⟩

/-- Every word a successful loop run returns was either present initially
or is a vocabulary key different from `"<unk>"` and `"<end>"`. -/
theorem genLoop_ok_mem (wi : List (String × Nat)) (msl n : Nat) (rand : Nat → Nat) :
    ∀ (fuel step : Nat) (text : String) (gen ws : List String),
      genLoop wi msl n rand step fuel text gen = .ok ws →
      ∀ w ∈ ws, w ∈ gen ∨ (w ∈ wi.map Prod.fst ∧ w ≠ "<unk>" ∧ w ≠ "<end>") := by
  intro fuel
  induction fuel with
  | zero =>
    intro step text gen ws h w hw
    simp only [genLoop, Except.ok.injEq] at h
    subst h; exact Or.inl hw
  | succ f ih =>
    intro step text gen ws h w hw
    simp only [genLoop] at h
    split at h
    · exact absurd h (by simp)
    · split at h
      · simp only [Except.ok.injEq] at h
        subst h; exact Or.inl hw
      · split at h
        · exact ih (step + 1) text gen ws h w hw
        · rcases ih (step + 1) _ _ ws h w hw with hmem | hP
          · rcases List.mem_append.mp hmem with hg | hw1
            · exact Or.inl hg
            · have hwEq : w = sampledWordAt wi n rand step := by simpa using hw1
              subst hwEq
              refine Or.inr ⟨?_, by assumption, by assumption⟩
              exact outputWord_mem_of_ne_unk wi _ (by assumption)
          · exact Or.inr hP

/-- If the word sampled at step `s + k` is `"<end>"` and every earlier step
sampled a genuine word (neither `"<end>"` nor `"<unk>"`), the loop halts
there having appended exactly `k` further words. -/
theorem genLoop_stops_at_end (wi : List (String × Nat)) (msl n : Nat) (rand : Nat → Nat) :
    ∀ (k s fuel : Nat) (text : String) (gen : List String),
      2 ≤ n → k < fuel →
      (∀ j, j < k → sampledWordAt wi n rand (s + j) ≠ "<end>" ∧
        sampledWordAt wi n rand (s + j) ≠ "<unk>") →
      sampledWordAt wi n rand (s + k) = "<end>" →
      Except.map List.length (genLoop wi msl n rand s fuel text gen) =
        .ok (gen.length + k) := by
  intro k
  induction k with
  | zero =>
    intro s fuel text gen hn hk _ hend
    cases fuel with
    | zero => omega
    | succ f =>
      have hn1 : ¬ n ≤ 1 := by omega
      have hend0 : sampledWordAt wi n rand s = "<end>" := by simpa using hend
      simp [genLoop, hn1, hend0, Except.map]
  | succ k ih =>
    intro s fuel text gen hn hk hbefore hend
    cases fuel with
    | zero => omega
    | succ f =>
      have hn1 : ¬ n ≤ 1 := by omega
      have hw0 := hbefore 0 (by omega)
      have hw0e : sampledWordAt wi n rand s ≠ "<end>" := by simpa using hw0.1
      have hw0u : sampledWordAt wi n rand s ≠ "<unk>" := by simpa using hw0.2
      have hrec := ih (s + 1) f (text ++ (" ") ++ sampledWordAt wi n rand s)
        (gen ++ [sampledWordAt wi n rand s]) hn (by omega)
        (fun j hj => by
          have := hbefore (j + 1) (by omega)
          rwa [show s + (j + 1) = s + 1 + j by omega] at this)
        (by rwa [show s + 1 + k = s + (k + 1) by omega])
      simp only [genLoop, hn1, if_false, hw0e, hw0u, ite_false]
      simp only [List.length_append, List.length_singleton] at hrec
      rw [show gen.length + (k + 1) = gen.length + 1 + k by omega]
      simpa [hn1, hw0e, hw0u] using hrec

/-! ### Concrete states used by witnesses and counterexamples -/

/-- A small fitted word index for decoder runs. -/
def wiABC : List (String × Nat) := [("<unk>", 1), ("a", 2), ("b", 3), ("<end>", 4)]

/-- Oracle choosing ids 2, 3, 4 at steps 0, 1, 2. -/
def randABC : Nat → Nat := fun s => [1, 2, 3].getD s 0

/-- A trained-looking generator over `wiABC` (`vocab_size = 5`). -/
def genABC : HaikuGenerator := ⟨some wiABC, some ⟨5, 6⟩, 5, 6⟩

/-- The single-poem corpus `("b c", "d", "e")`. -/
def corpusBC : List Haiku := [⟨"b c", "d", "e"⟩]

/-- The generator state after `train` on `corpusBC`. -/
def trainedBC : HaikuGenerator := (train freshGenerator corpusBC).1

/-- `save_model` on the trained state followed by `load_model` on a fresh
`HaikuGenerator()`. -/
def reloadedBC : HaikuGenerator :=
  (load_model freshGenerator (save_model trainedBC emptyStore)).toOption.getD freshGenerator

/-! ### Claim theorems -/

/-- C3: in every iteration of the generation loop, the id handed back by
`np.random.choice(range(1, len(predicted_probs)), ...)` lies in
`1..vocab_size-1` and is never the padding id 0, for a trained generator
(whose model output width `outDim` is the `vocab_size` used by
`create_model`), any sampling oracle and any temperature `> 0`. -/
theorem C3_sampled_id_in_range (g : HaikuGenerator) (m : KerasModel)
    (temperature : ℚ) (rand : Nat → Nat) (step : Nat)
    (hm : g.model = some m) (hdim : m.outDim = g.vocab_size)
    (hv : 2 ≤ g.vocab_size) (ht : 0 < temperature) :
    1 ≤ sampleId m.outDim (rand step) ∧
    sampleId m.outDim (rand step) ≤ g.vocab_size - 1 ∧
    sampleId m.outDim (rand step) ≠ 0 := by
  rw [hdim]
  unfold sampleId
  have := Nat.mod_lt (rand step) (y := g.vocab_size - 1) (by omega)
  omega

/-- Witness for C3 at the concrete trained state `genABC`. -/
theorem C3_witness :
    1 ≤ sampleId (5 : Nat) (randABC 0) ∧
    sampleId (5 : Nat) (randABC 0) ≤ 5 - 1 ∧
    sampleId (5 : Nat) (randABC 0) ≠ 0 :=
  C3_sampled_id_in_range genABC ⟨5, 6⟩ 1 randABC 0 rfl rfl (by decide) (by norm_num)

/-- C4: for every seed line, `max_length`, temperature `> 0` and sampling
oracle, the generated-token list of a completed run has at most
`max_length` entries (the loop itself is bounded by construction: it
recurses on the `max_length` fuel). -/
theorem C4_generated_length_le_max_length (g : HaikuGenerator)
    (first_line : String) (max_length : Nat) (temperature : ℚ)
    (rand : Nat → Nat) (ws : List String) (ht : 0 < temperature)
    (h : generateWords g first_line max_length temperature rand = .ok ws) :
    ws.length ≤ max_length := by
  cases hmod : g.model with
  | none => simp [generateWords, hmod] at h
  | some m =>
    cases htok : g.tokenizer with
    | none => simp [generateWords, hmod, htok] at h
    | some wi =>
      simp only [generateWords, hmod, htok] at h
      have := genLoop_ok_length_le wi g.max_sequence_length m.outDim rand
        max_length 0 (first_line ++ (" <line>")) [] ws h
      simpa using this

/-- Witness for C4: a concrete completed run of length 2 with
`max_length = 10`. -/
theorem C4_witness :
    (0 : ℚ) < 1 ∧ (["a", "b"] : List String).length ≤ 10 :=
  ⟨by norm_num,
   C4_generated_length_le_max_length genABC ("x") 10 1 randABC ["a", "b"]
     (by norm_num) (by decide)⟩

/-- C8: calling `generate_haiku_completion` with an absent model or absent
tokenizer yields exactly the not-ready `ValueError` of `training.py`
123-124, before any generation is attempted; with both present the guard
never fires. -/
theorem C8_not_ready_guard (g : HaikuGenerator) (first_line : String)
    (max_length : Nat) (temperature : ℚ) (rand : Nat → Nat) :
    ((g.model = none ∨ g.tokenizer = none) →
      generate_haiku_completion g first_line max_length temperature rand =
        .error .notReady) ∧
    (∀ m wi, g.model = some m → g.tokenizer = some wi →
      generate_haiku_completion g first_line max_length temperature rand ≠
        .error .notReady) := by
  constructor
  · rintro (hm | ht)
    · cases htok : g.tokenizer <;>
        simp [generate_haiku_completion, generateWords, hm, htok, Except.map]
    · cases hmod : g.model <;>
        simp [generate_haiku_completion, generateWords, hmod, ht, Except.map]
  · intro m wi hm hwi hcontra
    simp only [generate_haiku_completion, generateWords, hm, hwi] at hcontra
    cases hres : genLoop wi g.max_sequence_length m.outDim rand 0 max_length
        (first_line ++ (" <line>")) [] with
    | ok ws => rw [hres] at hcontra; simp [Except.map] at hcontra
    | error e =>
      rw [hres] at hcontra
      simp only [Except.map, Except.error.injEq] at hcontra
      have := genLoop_error_eq wi g.max_sequence_length m.outDim rand
        max_length 0 (first_line ++ (" <line>")) [] e hres
      rw [hcontra] at this
      exact absurd this (by simp)

/-- Witness for C8: a fresh generator is rejected with the not-ready
error; the concrete trained state `genABC` is not. -/
theorem C8_witness :
    generate_haiku_completion freshGenerator ("x") 5 1 (fun _ => 0) =
      .error .notReady ∧
    generate_haiku_completion genABC ("x") 10 1 randABC ≠ .error .notReady :=
  ⟨(C8_not_ready_guard freshGenerator ("x") 5 1 (fun _ => 0)).1 (Or.inl rfl),
   (C8_not_ready_guard genABC ("x") 10 1 randABC).2 ⟨5, 6⟩ wiABC rfl rfl⟩

/-- C10: `save_model` has no failure path on absent state: a `none` model
leaves the model artifact untouched, a `none` tokenizer leaves the
tokenizer artifact untouched, and a present half is written — so the two
halves are not written as one unit. -/
theorem C10_save_model_partial_state (g : HaikuGenerator) (s : ModelStore) :
    (g.model = none → (save_model g s).modelFile = s.modelFile) ∧
    (g.tokenizer = none → (save_model g s).tokenizerFile = s.tokenizerFile) ∧
    (∀ m, g.model = some m → (save_model g s).modelFile = some m) ∧
    (∀ t, g.tokenizer = some t → (save_model g s).tokenizerFile = some t) := by
  refine ⟨?_, ?_, ?_, ?_⟩
  · intro h; simp [save_model, h]
  · intro h; simp [save_model, h]
  · intro m h; simp [save_model, h]
  · intro t h; simp [save_model, h]

/-- A store already holding both artifacts, for the C10 witness. -/
def storeKept : ModelStore := ⟨some ⟨7, 5⟩, some [("a", 1)]⟩

/-- Witness for C10: saving a fresh (all-`None`) generator over an
existing store changes neither artifact. -/
theorem C10_witness :
    (save_model freshGenerator storeKept).modelFile = storeKept.modelFile ∧
    (save_model freshGenerator storeKept).tokenizerFile = storeKept.tokenizerFile :=
  ⟨(C10_save_model_partial_state freshGenerator storeKept).1 rfl,
   (C10_save_model_partial_state freshGenerator storeKept).2.1 rfl⟩

/-- C6: `prepare_data` raises its `ValueError` exactly when zero training
pairs are produced across the whole corpus, and a poem whose flattened
sequence contains no `<line>` token id is skipped, contributing no pairs
rather than an error. -/
theorem C6_error_iff_no_pairs (g : HaikuGenerator) (haikus : List Haiku) :
    ((prepare_data g haikus).2 = none ↔ corpusPairs haikus = []) ∧
    (∀ h : Haiku,
      (fullSequence (fittedIndex haikus) h).findIdx?
          (fun t => t = lineTokenId (fittedIndex haikus)) = none →
      poemPairs (fittedIndex haikus) h = []) := by
  constructor
  · by_cases hp : corpusPairs haikus = []
    · simp [prepare_data, hp]
    · simp [prepare_data, List.isEmpty_iff, hp]
  · intro h hfind
    simp [poemPairs, hfind]

/-- Witness for C6: the empty corpus produces zero pairs and errors, and a
poem tokenized against an index with no `<line>` entry is skipped. -/
theorem C6_witness :
    (prepare_data freshGenerator []).2 = none ∧
    poemPairs (fittedIndex []) ⟨"a", "b", "c"⟩ = [] :=
  ⟨(C6_error_iff_no_pairs freshGenerator []).1.mpr rfl,
   (C6_error_iff_no_pairs freshGenerator []).2 ⟨"a", "b", "c"⟩ (by decide)⟩

/-- C1 (failing evidence): training on `corpusBC` sets
`max_sequence_length = 6` and `vocab_size = 8`; `save_model` writes both
artifacts and `load_model` on a fresh generator restores the model, the
tokenizer and `vocab_size` — but `max_sequence_length` stays at the fresh
generator's `0`, because `load_model` (`training.py` 195-202) never assigns
it.  Padding width at inference therefore differs from training, so
generation cannot behave identically. -/
theorem C1_load_does_not_restore_max_sequence_length :
    trainedBC.max_sequence_length = 6 ∧
    trainedBC.vocab_size = 8 ∧
    reloadedBC.model = trainedBC.model ∧
    reloadedBC.tokenizer = trainedBC.tokenizer ∧
    reloadedBC.vocab_size = 8 ∧
    reloadedBC.max_sequence_length = 0 ∧
    reloadedBC.max_sequence_length ≠ trainedBC.max_sequence_length := by decide

/-- C2 (counterexample): for the poem `("b c", "d", "e")` the first
`<line>` id sits at index 2 of the 7-token flattened sequence, so the
`n = 4` emitted pairs have prefix lengths `3, 4, 5, 6` — strictly
increasing, but not `1..n` as the claim states. -/
theorem C2_counterexample :
    (fullSequence (fittedIndex corpusBC) ⟨"b c", "d", "e"⟩).findIdx?
        (fun t => t = lineTokenId (fittedIndex corpusBC)) = some 2 ∧
    (fullSequence (fittedIndex corpusBC) ⟨"b c", "d", "e"⟩).length = 7 ∧
    (poemPairs (fittedIndex corpusBC) ⟨"b c", "d", "e"⟩).length = 4 ∧
    (poemPairs (fittedIndex corpusBC) ⟨"b c", "d", "e"⟩).map
        (fun q => q.1.length) = [3, 4, 5, 6] ∧
    ([3, 4, 5, 6] : List Nat) ≠ [1, 2, 3, 4] := by decide

/-- C2 (amended): a poem whose flattened sequence has its first `<line>`
id at index `p` and `n` tokens strictly after it yields exactly `n` pairs,
whose prefixes have the strictly increasing lengths `p+1 .. p+n` (not
`1..n`). -/
theorem C2_pair_count_and_prefix_lengths (wi : List (String × Nat))
    (h : Haiku) (p : Nat)
    (hfind : (fullSequence wi h).findIdx? (fun t => t = lineTokenId wi) = some p) :
    (poemPairs wi h).length = (fullSequence wi h).length - (p + 1) ∧
    (poemPairs wi h).map (fun q => q.1.length) =
      List.range' (p + 1) ((fullSequence wi h).length - (p + 1)) := by
  have hpp : poemPairs wi h = trainingPairs (fullSequence wi h) p := by
    simp [poemPairs, hfind]
  rw [hpp]
  constructor
  · simp [trainingPairs]
  · unfold trainingPairs
    rw [List.map_map]
    have hcong : ∀ i ∈ List.range' (p + 1) ((fullSequence wi h).length - (p + 1)),
        ((fun q : List Nat × Nat => q.1.length) ∘
          fun i => ((fullSequence wi h).take i, (fullSequence wi h).getD i 0)) i =
          (fun i => i) i := by
      intro i hi
      have := List.mem_range'_1.mp hi
      simp only [Function.comp_apply, List.length_take]
      omega
    rw [List.map_congr_left hcong]
    simp

/-- Witness for the amended C2 at the concrete poem of `corpusBC`. -/
theorem C2_witness :
    (poemPairs (fittedIndex corpusBC) ⟨"b c", "d", "e"⟩).length =
      (fullSequence (fittedIndex corpusBC) ⟨"b c", "d", "e"⟩).length - (2 + 1) ∧
    (poemPairs (fittedIndex corpusBC) ⟨"b c", "d", "e"⟩).map (fun q => q.1.length) =
      List.range' (2 + 1)
        ((fullSequence (fittedIndex corpusBC) ⟨"b c", "d", "e"⟩).length - (2 + 1)) :=
  C2_pair_count_and_prefix_lengths (fittedIndex corpusBC) ⟨"b c", "d", "e"⟩ 2 (by decide)

/-- Word index and oracle for the C5 counterexample: step 0 samples the
id mapped to `"<unk>"`, step 1 the id mapped to `"<end>"`. -/
def wiUnk : List (String × Nat) := [("<unk>", 1), ("w", 2), ("<end>", 3)]

/-- Oracle for the C5 counterexample. -/
def randUnk : Nat → Nat := fun s => [0, 2].getD s 0

/-- Generator state over `wiUnk`. -/
def genUnk : HaikuGenerator := ⟨some wiUnk, some ⟨4, 3⟩, 4, 3⟩

/-- C5 (counterexample): `<end>` is sampled at step `k = 1 < max_length`
and no earlier step sampled `<end>`, yet the loop returns zero appended
tokens, because step 0 sampled `<unk>` which is consumed without
appending — the claim's "exactly k elements" fails. -/
theorem C5_counterexample :
    sampledWordAt wiUnk 4 randUnk 0 = "<unk>" ∧
    sampledWordAt wiUnk 4 randUnk 1 = "<end>" ∧
    (∀ j, j < 1 → sampledWordAt wiUnk 4 randUnk j ≠ "<end>") ∧
    1 < 5 ∧
    generateWords genUnk ("x") 5 1 randUnk = .ok [] ∧
    ([] : List String).length ≠ 1 := by decide

/-- C5 (amended): if the word sampled at step `k < max_length` is `<end>`
and every earlier step sampled a genuine word (neither `<end>` nor
`<unk>`), the loop stops at step `k` with exactly `k` appended tokens.
When some earlier step sampled `<unk>`, the count is smaller, as
`C5_counterexample` shows. -/
theorem C5_end_stops_loop (g : HaikuGenerator) (m : KerasModel)
    (wi : List (String × Nat)) (first_line : String) (max_length k : Nat)
    (temperature : ℚ) (rand : Nat → Nat)
    (hm : g.model = some m) (hwi : g.tokenizer = some wi)
    (hn : 2 ≤ m.outDim) (hk : k < max_length)
    (hbefore : ∀ j, j < k → sampledWordAt wi m.outDim rand j ≠ "<end>" ∧
      sampledWordAt wi m.outDim rand j ≠ "<unk>")
    (hend : sampledWordAt wi m.outDim rand k = "<end>") :
    Except.map List.length (generateWords g first_line max_length temperature rand) =
      .ok k := by
  simp only [generateWords, hm, hwi]
  have := genLoop_stops_at_end wi g.max_sequence_length m.outDim rand k 0
    max_length (first_line ++ (" <line>")) [] hn hk
    (fun j hj => by simpa using hbefore j hj)
    (by simpa using hend)
  simpa using this

/-- Witness for the amended C5: steps 0 and 1 sample `"a"`, `"b"`, step 2
samples `"<end>"`, and the run returns exactly 2 tokens. -/
theorem C5_witness :
    Except.map List.length (generateWords genABC ("x") 10 1 randABC) = .ok 2 :=
  C5_end_stops_loop genABC ⟨5, 6⟩ wiABC ("x") 10 2 1 randABC rfl rfl
    (by decide) (by decide) (by decide) (by decide)

/-- Word index for the C9 counterexample, containing a vocabulary token
with `"<line>"` as a proper substring (the tokenizer's filters keep `<`
and `>`, so such a token is producible from a corpus). -/
def wiMarker : List (String × Nat) := [("<unk>", 1), ("a<line>b", 2), ("<end>", 3)]

/-- Oracle for the C9 counterexample: samples id 2 then id 3. -/
def randMarker : Nat → Nat := fun s => [1, 2].getD s 0

/-- Generator state over `wiMarker`. -/
def genMarker : HaikuGenerator := ⟨some wiMarker, some ⟨4, 5⟩, 4, 5⟩

/-- C9 (counterexample): the appended token `"a<line>b"` is a vocabulary
key, but the post-processing strips the `"<line>"` substring, so the
returned string is `"ab"` — a word of the output that is *not* in the word
index.  The claim's "every word appearing in the returned string" reading
fails. -/
theorem C9_counterexample :
    generate_haiku_completion genMarker ("x") 5 1 randMarker = .ok ("ab") ∧
    outputWords ("ab") = [("ab" : String)] ∧
    ("ab" : String) ∉ wiMarker.map Prod.fst := by decide

/-- C9 (amended): every token in the generated-token list of a successful
run is a key of the word index and is neither `"<unk>"` nor `"<end>"`:
a sampled id with no reverse-map entry is mapped to `"<unk>"` and
discarded, and `"<unk>"`/`"<end>"` are never appended.  (The *returned
string* can still contain out-of-vocabulary words when a vocabulary token
has `"<line>"`/`"<end>"` as a proper substring, as `C9_counterexample`
shows.) -/
theorem C9_generated_words_in_vocabulary (g : HaikuGenerator)
    (wi : List (String × Nat)) (first_line : String) (max_length : Nat)
    (temperature : ℚ) (rand : Nat → Nat) (ws : List String)
    (hwi : g.tokenizer = some wi)
    (h : generateWords g first_line max_length temperature rand = .ok ws) :
    ∀ w ∈ ws, w ∈ wi.map Prod.fst ∧ w ≠ "<unk>" ∧ w ≠ "<end>" := by
  intro w hw
  cases hm : g.model with
  | none => simp [generateWords, hm] at h
  | some m =>
    simp only [generateWords, hm, hwi] at h
    rcases genLoop_ok_mem wi g.max_sequence_length m.outDim rand max_length 0
      (first_line ++ (" <line>")) [] ws h w hw with hmem | hP
    · simp at hmem
    · exact hP

/-- Witness for the amended C9 at the concrete run of `genABC`. -/
theorem C9_witness :
    ("a" : String) ∈ wiABC.map Prod.fst ∧ ("a" : String) ≠ "<unk>" ∧
      ("a" : String) ≠ "<end>" :=
  C9_generated_words_in_vocabulary genABC wiABC ("x") 10 1 randABC ["a", "b"]
    rfl (by decide) ("a") (by decide)

/-! ### Lemmas about `fit_on_texts` (for the vocabulary-numbering claim) -/

/-- Bumping a count never changes the key list except possibly appending
the new word. -/
theorem map_fst_addWord (d : List (String × Nat)) (w : String) :
    (addWord d w).map Prod.fst =
      if w ∈ d.map Prod.fst then d.map Prod.fst else d.map Prod.fst ++ [w] := by
  unfold addWord
  by_cases hb : d.any (fun p => p.1 = w) = true
  · have hmem : w ∈ d.map Prod.fst := by
      rcases List.any_eq_true.mp hb with ⟨p, hp, he⟩
      exact List.mem_map.mpr ⟨p, hp, by simpa using he⟩
    rw [if_pos hb, if_pos hmem, List.map_map]
    apply List.map_congr_left
    intro p _
    by_cases hpe : p.1 = w <;> simp [Function.comp, hpe]
  · have hmem : w ∉ d.map Prod.fst := by
      intro hc
      rcases List.mem_map.mp hc with ⟨p, hp, he⟩
      exact hb (List.any_eq_true.mpr ⟨p, hp, by simpa using he⟩)
    rw [if_neg hb, if_neg hmem]
    simp

/-- The key list of the word-count fold is the distinct-in-first-seen-order
fold over the keys. -/
theorem map_fst_foldl_addWord : ∀ (ws : List String) (d : List (String × Nat)),
    (ws.foldl addWord d).map Prod.fst =
      ws.foldl (fun acc w => if w ∈ acc then acc else acc ++ [w]) (d.map Prod.fst)
  | [], _ => rfl
  | w :: ws, d => by
    simp only [List.foldl_cons]
    rw [map_fst_foldl_addWord ws (addWord d w), map_fst_addWord]

/-- The keys of `word_counts` are exactly the distinct corpus words in
first-seen order. -/
theorem wordCounts_keys (ws : List String) :
    (wordCounts ws).map Prod.fst = firstSeenDistinct ws := by
  unfold wordCounts firstSeenDistinct
  simpa using map_fst_foldl_addWord ws []

/-- `insertDesc` only moves the inserted element into place. -/
theorem insertDesc_perm (x : String × Nat) (l : List (String × Nat)) :
    (insertDesc x l).Perm (x :: l) := by
  induction l with
  | nil => exact List.Perm.refl _
  | cons y ys ih =>
    unfold insertDesc
    by_cases hc : y.2 > x.2
    · rw [if_pos hc]
      exact (ih.cons y).trans (List.Perm.swap x y ys)
    · rw [if_neg hc]

/-- The stable sort permutes its input. -/
theorem sortByCountDesc_perm (l : List (String × Nat)) :
    (sortByCountDesc l).Perm l := by
  induction l with
  | nil => exact List.Perm.refl _
  | cons x xs ih =>
    simp only [sortByCountDesc]
    exact (insertDesc_perm x (sortByCountDesc xs)).trans (ih.cons x)

/-- Descending order of counts, as produced by the stable sort. -/
def countGE (a b : String × Nat) : Prop := b.2 ≤ a.2

/-- Membership in an insertion. -/
theorem mem_insertDesc (x a : String × Nat) (l : List (String × Nat)) :
    a ∈ insertDesc x l ↔ a = x ∨ a ∈ l := by
  rw [(insertDesc_perm x l).mem_iff]
  simp

/-- Inserting into a count-descending list keeps it count-descending. -/
theorem insertDesc_pairwise (x : String × Nat) (l : List (String × Nat))
    (hl : l.Pairwise countGE) : (insertDesc x l).Pairwise countGE := by
  induction l with
  | nil => simp [insertDesc, countGE]
  | cons y ys ih =>
    rw [List.pairwise_cons] at hl
    obtain ⟨hy, hys⟩ := hl
    unfold insertDesc
    by_cases hc : y.2 > x.2
    · rw [if_pos hc]
      rw [List.pairwise_cons]
      refine ⟨?_, ih hys⟩
      intro a ha
      rcases (mem_insertDesc x a ys).mp ha with rfl | hmem
      · exact Nat.le_of_lt hc
      · exact hy a hmem
    · rw [if_neg hc]
      rw [List.pairwise_cons]
      refine ⟨?_, List.pairwise_cons.mpr ⟨hy, hys⟩⟩
      intro a ha
      rcases List.mem_cons.mp ha with rfl | hmem
      · unfold countGE; omega
      · have h1 := hy a hmem
        unfold countGE at h1 ⊢
        omega

/-- The sorted count list is count-descending. -/
theorem sortByCountDesc_pairwise (l : List (String × Nat)) :
    (sortByCountDesc l).Pairwise countGE := by
  induction l with
  | nil => simp [sortByCountDesc]
  | cons x xs ih =>
    simp only [sortByCountDesc]
    exact insertDesc_pairwise x (sortByCountDesc xs) ih

/-- Elements of the distinct-fold come from the accumulator or the
stream. -/
theorem mem_foldl_distinct : ∀ (ws acc : List String) (x : String),
    x ∈ ws.foldl (fun acc w => if w ∈ acc then acc else acc ++ [w]) acc →
    x ∈ acc ∨ x ∈ ws := by
  intro ws
  induction ws with
  | nil =>
    intro acc x h
    exact Or.inl (by simpa using h)
  | cons w ws ih =>
    intro acc x h
    simp only [List.foldl_cons] at h
    rcases ih _ x h with h1 | h2
    · by_cases hw : w ∈ acc
      · rw [if_pos hw] at h1
        exact Or.inl h1
      · rw [if_neg hw] at h1
        rcases List.mem_append.mp h1 with ha | hb
        · exact Or.inl ha
        · simp at hb
          subst hb
          exact Or.inr (List.mem_cons_self _ _)
    · exact Or.inr (List.mem_cons_of_mem w h2)

/-- The distinct-fold preserves freedom from duplicates. -/
theorem nodup_foldl_distinct : ∀ (ws acc : List String), acc.Nodup →
    (ws.foldl (fun acc w => if w ∈ acc then acc else acc ++ [w]) acc).Nodup := by
  intro ws
  induction ws with
  | nil => intro acc h; simpa using h
  | cons w ws ih =>
    intro acc hacc
    simp only [List.foldl_cons]
    apply ih
    by_cases hw : w ∈ acc
    · rw [if_pos hw]; exact hacc
    · rw [if_neg hw]
      refine List.nodup_append.mpr ⟨hacc, by simp, ?_⟩
      intro a ha hb
      simp at hb
      subst hb
      exact hw ha

/-- `firstSeenDistinct` contains no duplicates. -/
theorem firstSeenDistinct_nodup (ws : List String) : (firstSeenDistinct ws).Nodup :=
  nodup_foldl_distinct ws [] List.nodup_nil

/-- A word not in the stream is not in its distinct list. -/
theorem not_mem_firstSeenDistinct (ws : List String) (w : String) (h : w ∉ ws) :
    w ∉ firstSeenDistinct ws := by
  intro hc
  rcases mem_foldl_distinct ws [] w hc with h1 | h2
  · simp at h1
  · exact h h2

/-- Dictionary insertion of an absent key is an append. -/
theorem dictInsert_eq_append (d : List (String × Nat)) (kv : String × Nat)
    (h : kv.1 ∉ d.map Prod.fst) : dictInsert d kv = d ++ [kv] := by
  unfold dictInsert
  have hb : ¬ (d.any (fun p => p.1 = kv.1) = true) := by
    intro hany
    rcases List.any_eq_true.mp hany with ⟨p, hp, he⟩
    exact h (List.mem_map.mpr ⟨p, hp, by simpa using he⟩)
  rw [if_neg hb]

/-- Folding dictionary insertions over entries with pairwise-fresh keys
appends them all: the built dictionary has one entry per key, in order. -/
theorem foldl_dictInsert_length_keys : ∀ (pairs d : List (String × Nat)),
    (d.map Prod.fst ++ pairs.map Prod.fst).Nodup →
    (pairs.foldl dictInsert d).length = d.length + pairs.length ∧
    (pairs.foldl dictInsert d).map Prod.fst = d.map Prod.fst ++ pairs.map Prod.fst := by
  intro pairs
  induction pairs with
  | nil => intro d _; simp
  | cons kv rest ih =>
    intro d hnd
    have hk : kv.1 ∉ d.map Prod.fst := by
      rcases List.nodup_append.mp hnd with ⟨_, _, hdisj⟩
      intro hc
      exact hdisj hc (by simp)
    simp only [List.foldl_cons]
    rw [dictInsert_eq_append d kv hk]
    have hnd' : ((d ++ [kv]).map Prod.fst ++ rest.map Prod.fst).Nodup := by
      simpa [List.append_assoc] using hnd
    obtain ⟨hlen, hkeys⟩ := ih (d ++ [kv]) hnd'
    constructor
    · rw [hlen]
      simp
      omega
    · rw [hkeys]
      simp [List.append_assoc]

/-- Dictionary insertion preserves "all values are at least 1". -/
theorem dictInsert_values_ge_one (d : List (String × Nat)) (kv : String × Nat)
    (hd : ∀ p ∈ d, 1 ≤ p.2) (hv : 1 ≤ kv.2) : ∀ p ∈ dictInsert d kv, 1 ≤ p.2 := by
  intro p hp
  unfold dictInsert at hp
  split at hp
  · rcases List.mem_map.mp hp with ⟨q, hq, he⟩
    by_cases hqe : q.1 = kv.1
    · rw [if_pos hqe] at he
      subst he
      exact hv
    · rw [if_neg hqe] at he
      subst he
      exact hd q hq
  · rcases List.mem_append.mp hp with h1 | h2
    · exact hd p h1
    · simp at h2
      subst h2
      exact hv

/-- All values of a built dictionary come from the inserted entries. -/
theorem foldl_dictInsert_values_ge_one : ∀ (pairs d : List (String × Nat)),
    (∀ p ∈ d, 1 ≤ p.2) → (∀ p ∈ pairs, 1 ≤ p.2) →
    ∀ p ∈ pairs.foldl dictInsert d, 1 ≤ p.2 := by
  intro pairs
  induction pairs with
  | nil =>
    intro d hd _ p hp
    exact hd p (by simpa using hp)
  | cons kv rest ih =>
    intro d hd hpairs p hp
    simp only [List.foldl_cons] at hp
    exact ih (dictInsert d kv)
      (dictInsert_values_ge_one d kv hd (hpairs kv (by simp)))
      (fun q hq => hpairs q (by simp [hq])) p hp

/-- Every id assigned by `fit_on_texts` is at least 1: id 0 is never
assigned to any token. -/
theorem fit_on_texts_values_ge_one (texts : List String) :
    ∀ p ∈ fit_on_texts texts, 1 ≤ p.2 := by
  intro p hp
  simp only [fit_on_texts, dictOfPairs] at hp
  refine foldl_dictInsert_values_ge_one _ [] (by simp) ?_ p hp
  intro q hq
  rcases q with ⟨w, v⟩
  have h2 := (List.of_mem_zip hq).2
  have h3 := List.mem_range'_1.mp h2
  simpa using h3.1

/-- When the literal word `"<unk>"` does not occur in the scanned stream,
the fitted index has one entry per distinct corpus word plus the forced
`"<unk>"` entry. -/
theorem fit_on_texts_length (texts : List String)
    (hunk : "<unk>" ∉ texts.flatMap textToWordSequence) :
    (fit_on_texts texts).length =
      (firstSeenDistinct (texts.flatMap textToWordSequence)).length + 1 := by
  have hkeys : (wordCounts (texts.flatMap textToWordSequence)).map Prod.fst =
      firstSeenDistinct (texts.flatMap textToWordSequence) :=
    wordCounts_keys _
  have hperm : ((sortByCountDesc (wordCounts (texts.flatMap textToWordSequence))).map
      Prod.fst).Perm (firstSeenDistinct (texts.flatMap textToWordSequence)) := by
    rw [← hkeys]
    exact (sortByCountDesc_perm _).map Prod.fst
  have hnd : ((sortByCountDesc (wordCounts (texts.flatMap textToWordSequence))).map
      Prod.fst).Nodup :=
    hperm.nodup_iff.mpr (firstSeenDistinct_nodup _)
  have hunk' : "<unk>" ∉ (sortByCountDesc (wordCounts
      (texts.flatMap textToWordSequence))).map Prod.fst := by
    intro hc
    exact not_mem_firstSeenDistinct _ _ hunk (hperm.mem_iff.mp hc)
  have hvnd : ("<unk>" :: (sortByCountDesc (wordCounts
      (texts.flatMap textToWordSequence))).map Prod.fst).Nodup :=
    List.nodup_cons.mpr ⟨hunk', hnd⟩
  have hzipkeys : ∀ (voc : List String), voc.Nodup →
      ((voc.zip (List.range' 1 voc.length)).map Prod.fst ).Nodup := by
    intro voc hv
    rw [List.map_fst_zip voc _ (by rw [List.length_range'])]
    exact hv
  simp only [fit_on_texts, dictOfPairs]
  have hmain := foldl_dictInsert_length_keys
    (("<unk>" :: (sortByCountDesc (wordCounts
      (texts.flatMap textToWordSequence))).map Prod.fst).zip
      (List.range' 1 ("<unk>" :: (sortByCountDesc (wordCounts
        (texts.flatMap textToWordSequence))).map Prod.fst).length)) []
    (by simpa using hzipkeys _ hvnd)
  rw [hmain.1]
  rw [List.length_zip, List.length_range']
  simp
  simpa using hperm.length_eq

/-- `prepare_data` always sets `vocab_size = len(word_index) + 1`, on the
success and on the failure path alike. -/
theorem prepare_data_vocab_size (g : HaikuGenerator) (haikus : List Haiku) :
    (prepare_data g haikus).1.vocab_size = (fittedIndex haikus).length + 1 := by
  unfold prepare_data
  by_cases hp : (corpusPairs haikus).isEmpty
  · simp [hp]
  · simp [hp]

/-- Corpus whose first-seen order differs from its frequency order:
`"b"` is seen first but `"a"` occurs most often. -/
def corpusBA : List Haiku := [⟨"b", "a a", "a"⟩]

/-- C7 (counterexample): the Keras tokenizer numbers the vocabulary by
*descending frequency* with the `"<unk>"` token forced to id 1 — not in
first-seen order.  Here the first-seen word `"b"` receives id 4 while the
later-seen but more frequent `"a"` receives id 2, and `vocab_size` is the
distinct-corpus-token count plus **2** (the `"<unk>"` entry and the
padding id), not plus 1. -/
theorem C7_counterexample :
    corpusWords corpusBA = ["b", "<line>", "a", "a", "<line>", "a", "<end>"] ∧
    firstSeenDistinct (corpusWords corpusBA) = ["b", "<line>", "a", "<end>"] ∧
    lookupWord (fittedIndex corpusBA) ("b") = some 4 ∧
    lookupWord (fittedIndex corpusBA) ("a") = some 2 ∧
    lookupWord (fittedIndex corpusBA) ("<unk>") = some 1 ∧
    (prepare_data freshGenerator corpusBA).1.vocab_size = 6 ∧
    (firstSeenDistinct (corpusWords corpusBA)).length + 1 = 5 := by decide

/-- C7 (amended): the vocabulary builder never assigns id 0 to any token;
the count list is ordered by descending frequency (ties keep first-seen
order, by stability of the insertion); and when the literal word
`"<unk>"` does not occur in the corpus, `vocab_size` equals the number of
distinct corpus tokens plus 2 (one for the forced `"<unk>"` entry at id 1,
one for the reserved padding id 0). -/
theorem C7_vocabulary_numbering (g : HaikuGenerator) (haikus : List Haiku) :
    (∀ p ∈ fittedIndex haikus, 1 ≤ p.2) ∧
    (sortByCountDesc (wordCounts (corpusWords haikus))).Pairwise countGE ∧
    ("<unk>" ∉ corpusWords haikus →
      (prepare_data g haikus).1.vocab_size =
        (firstSeenDistinct (corpusWords haikus)).length + 2) := by
  refine ⟨fit_on_texts_values_ge_one _, sortByCountDesc_pairwise _, ?_⟩
  intro hunk
  rw [prepare_data_vocab_size]
  have hlen := fit_on_texts_length (haikus.map fullHaikuText) hunk
  rw [show fittedIndex haikus = fit_on_texts (haikus.map fullHaikuText) from rfl, hlen]
  rfl

/-- Witness for the amended C7 on the concrete corpus `corpusBC`
(6 distinct corpus tokens, `vocab_size = 8`). -/
theorem C7_witness :
    (prepare_data freshGenerator corpusBC).1.vocab_size =
      (firstSeenDistinct (corpusWords corpusBC)).length + 2 :=
  (C7_vocabulary_numbering freshGenerator corpusBC).2.2 (by decide)
